import Mathlib

set_option maxRecDepth 10000

/-!
A verification development for the KiCad MCP server's command bridge
(src/main.py): the generic dispatcher `KiCadClient.cpp_sdk_action`, the
legacy net-label command `KiCadClient.place_net_label`, the connectivity
retrieval-and-sanitization pipeline `KiCadClient.get_netlist`, and the
query-style tool wrappers (`query_symbol_library`, `query_pcb_layer_names`,
`draw_circle`, `saveFrame`).

The embedding is shallow: Python dicts/lists/strings exchanged as JSON are
modelled by `JVal`; the pynng request/reply exchange is modelled by a
transport function from the sent bytes to an exchange outcome; a Python
function that can raise returns `Except PyError _`; a caught exception
becomes `none`/`Except.error` exactly where the source catches it.
-/

namespace KicadMcp

/-- JSON values as produced and consumed by Python's `json` module in this
server. Numbers are restricted to integers, which covers every envelope the
bridge itself builds or inspects. -/
inductive JVal where
  | null
  | bool (b : Bool)
  | num (n : Int)
  | str (s : String)
  | arr (elems : List JVal)
  | obj (fields : List (String × JVal))
deriving Repr, BEq

/-- Lowercase hex digit, as used by `json.dumps` for escaped characters. -/
def hexDigit (n : Nat) : Char :=
  if n < 10 then Char.ofNat (48 + n) else Char.ofNat (87 + n)

/-- Four-digit lowercase hex rendering of a code unit (for a JSON escape). -/
def hex4 (n : Nat) : List Char :=
  [hexDigit (n / 4096 % 16), hexDigit (n / 256 % 16), hexDigit (n / 16 % 16), hexDigit (n % 16)]

/-- How `json.dumps` (with its default `ensure_ascii=True`) renders one
character of a string: quote and backslash are backslash-escaped, the common
control characters use their short escapes, all other characters outside the
printable ASCII range become hex escapes (with a surrogate pair above
U+FFFF). -/
def jsonEscapeChar (c : Char) : List Char :=
  if c = '"' then ['\\', '"']
  else if c = '\\' then ['\\', '\\']
  else if c = '\n' then ['\\', 'n']
  else if c = '\t' then ['\\', 't']
  else if c = '\r' then ['\\', 'r']
  else if c = Char.ofNat 8 then ['\\', 'b']
  else if c = Char.ofNat 12 then ['\\', 'f']
  else if c.toNat < 32 ∨ c.toNat > 126 then
    if c.toNat < 65536 then '\\' :: 'u' :: hex4 c.toNat
    else
      let v := c.toNat - 65536
      ('\\' :: 'u' :: hex4 (55296 + v / 1024)) ++ ('\\' :: 'u' :: hex4 (56320 + v % 1024))
  else [c]

/-- `json.dumps` rendering of a string literal, quotes included. -/
def jsonDumpString (s : String) : String :=
  String.mk ('"' :: (s.data.flatMap jsonEscapeChar) ++ ['"'])

mutual

/-- `json.dumps` with its default separators (", " between items, ": " after
keys), as the source calls it on every request envelope. -/
def JVal.dumps : JVal → String
  | .null => "null"
  | .bool true => "true"
  | .bool false => "false"
  | .num n => toString n
  | .str s => jsonDumpString s
  | .arr xs => "[" ++ JVal.dumpsArr xs ++ "]"
  | .obj kvs => "\x7b" ++ JVal.dumpsObj kvs ++ "\x7d"

/-- Comma-separated rendering of JSON array elements. -/
def JVal.dumpsArr : List JVal → String
  | [] => ""
  | [x] => x.dumps
  | x :: y :: rest => x.dumps ++ ", " ++ JVal.dumpsArr (y :: rest)

/-- Comma-separated rendering of JSON object members. -/
def JVal.dumpsObj : List (String × JVal) → String
  | [] => ""
  | [(k, v)] => jsonDumpString k ++ ": " ++ v.dumps
  | (k, v) :: e :: rest => jsonDumpString k ++ ": " ++ v.dumps ++ ", " ++ JVal.dumpsObj (e :: rest)

end

/-- Python truthiness of a decoded JSON value (`if not netlist: ...` in
`get_netlist`): `None`, `False`, `0`, the empty string, the empty list and
the empty dict are falsy. -/
def JVal.falsy : JVal → Bool
  | .null => true
  | .bool b => !b
  | .num n => n == 0
  | .str s => s.isEmpty
  | .arr xs => xs.isEmpty
  | .obj kvs => kvs.isEmpty

/-- Key lookup in a decoded JSON object. `json.loads` builds a Python dict
by inserting members in order, so a duplicated key keeps its last value. -/
def lookupLast (kvs : List (String × JVal)) (k : String) : Option JVal :=
  kvs.foldl (fun acc kv => if kv.1 = k then some kv.2 else acc) none

/-- `d.get(k)` on a decoded JSON object (`none` both when the key is absent
and when the value would be Python `None` is *not* conflated here: an
explicit JSON `null` value comes back as `some JVal.null`). -/
def JVal.lookup : JVal → String → Option JVal
  | .obj kvs, k => lookupLast kvs k
  | _, _ => none

/-- The Python exceptions raised on the paths this development models. -/
inductive PyError where
  | attributeError
  | typeError
  | valueError
  | keyError
  | unicodeError
  | binasciiError
deriving Repr, DecidableEq

/-- JSON whitespace, as skipped by `json.loads`. -/
def jsonWs (c : Char) : Bool := c = ' ' || c = '\t' || c = '\n' || c = '\r'

/-- Value of one hex digit. -/
def hexVal (c : Char) : Option Nat :=
  if '0' ≤ c ∧ c ≤ '9' then some (c.toNat - 48)
  else if 'a' ≤ c ∧ c ≤ 'f' then some (c.toNat - 87)
  else if 'A' ≤ c ∧ c ≤ 'F' then some (c.toNat - 55)
  else none

/-- Four hex digits, as in a JSON `\uXXXX` escape. -/
def readHex4 : List Char → Option (Nat × List Char)
  | a :: b :: c :: d :: rest =>
    match hexVal a, hexVal b, hexVal c, hexVal d with
    | some x, some y, some z, some w => some (x * 4096 + y * 256 + z * 16 + w, rest)
    | _, _, _, _ => none
  | _ => none

/-- The single-character JSON escapes. -/
def jsonUnescape (c : Char) : Option Char :=
  if c = '"' then some '"'
  else if c = '\\' then some '\\'
  else if c = '/' then some '/'
  else if c = 'b' then some (Char.ofNat 8)
  else if c = 'f' then some (Char.ofNat 12)
  else if c = 'n' then some '\n'
  else if c = 'r' then some '\r'
  else if c = 't' then some '\t'
  else none

/-- Body of a JSON string literal, after the opening quote: ordinary
characters, escapes, and `\uXXXX` (with surrogate pairs combined). -/
def parseJsonStringBody : Nat → List Char → Option (List Char × List Char)
  | 0, _ => none
  | _, [] => none
  | fuel+1, c :: rest =>
    if c = '"' then some ([], rest)
    else if c = '\\' then
      match rest with
      | [] => none
      | e :: rest' =>
        if e = 'u' then
          match readHex4 rest' with
          | none => none
          | some (n, rest2) =>
            if 55296 ≤ n ∧ n < 56320 then
              match rest2 with
              | '\\' :: 'u' :: rest3 =>
                match readHex4 rest3 with
                | some (m, rest4) =>
                  if 56320 ≤ m ∧ m < 57344 then
                    (parseJsonStringBody fuel rest4).map
                      (fun tr => (Char.ofNat (65536 + (n - 55296) * 1024 + (m - 56320)) :: tr.1, tr.2))
                  else none
                | none => none
              | _ => none
            else if 56320 ≤ n ∧ n < 57344 then none
            else (parseJsonStringBody fuel rest2).map (fun tr => (Char.ofNat n :: tr.1, tr.2))
        else
          match jsonUnescape e with
          | none => none
          | some c' => (parseJsonStringBody fuel rest').map (fun tr => (c' :: tr.1, tr.2))
    else if c.toNat < 32 then none
    else (parseJsonStringBody fuel rest).map (fun tr => (c :: tr.1, tr.2))

/-- A run of decimal digits. -/
def readDigits (cs : List Char) : List Char × List Char :=
  (cs.takeWhile (fun c => '0' ≤ c ∧ c ≤ '9'), cs.dropWhile (fun c => '0' ≤ c ∧ c ≤ '9'))

/-- Decimal value of a digit run. -/
def digitsToNat (ds : List Char) : Nat := ds.foldl (fun a c => a * 10 + (c.toNat - 48)) 0

mutual

/-- The recursive core of `json.loads` (fueled; number syntax restricted to
integers, which covers every envelope this bridge exchanges). -/
def parseJVal : Nat → List Char → Option (JVal × List Char)
  | 0, _ => none
  | fuel+1, cs =>
    match cs.dropWhile jsonWs with
    | [] => none
    | c :: rest =>
      if c = '"' then (parseJsonStringBody (fuel+1) rest).map (fun tr => (.str (String.mk tr.1), tr.2))
      else if c = '[' then
        match rest.dropWhile jsonWs with
        | ']' :: r => some (.arr [], r)
        | _ => (parseJArrItems fuel rest).map (fun tr => (.arr tr.1, tr.2))
      else if c = '\x7b' then
        match rest.dropWhile jsonWs with
        | '\x7d' :: r => some (.obj [], r)
        | _ => (parseJObjItems fuel rest).map (fun tr => (.obj tr.1, tr.2))
      else if c = 't' then
        match rest with
        | 'r' :: 'u' :: 'e' :: r => some (.bool true, r)
        | _ => none
      else if c = 'f' then
        match rest with
        | 'a' :: 'l' :: 's' :: 'e' :: r => some (.bool false, r)
        | _ => none
      else if c = 'n' then
        match rest with
        | 'u' :: 'l' :: 'l' :: r => some (.null, r)
        | _ => none
      else if c = '-' then
        match readDigits rest with
        | ([], _) => none
        | (ds, r) => some (.num (-(digitsToNat ds : Int)), r)
      else if '0' ≤ c ∧ c ≤ '9' then
        match readDigits (c :: rest) with
        | (ds, r) => some (.num (digitsToNat ds), r)
      else none

/-- Items of a non-empty JSON array, commas included. -/
def parseJArrItems : Nat → List Char → Option (List JVal × List Char)
  | 0, _ => none
  | fuel+1, cs =>
    match parseJVal fuel cs with
    | none => none
    | some (v, r) =>
      match r.dropWhile jsonWs with
      | ',' :: r' => (parseJArrItems fuel r').map (fun tr => (v :: tr.1, tr.2))
      | ']' :: r' => some ([v], r')
      | _ => none

/-- Members of a non-empty JSON object, commas included. -/
def parseJObjItems : Nat → List Char → Option (List (String × JVal) × List Char)
  | 0, _ => none
  | fuel+1, cs =>
    match cs.dropWhile jsonWs with
    | '"' :: r =>
      match parseJsonStringBody (fuel+1) r with
      | none => none
      | some (k, r1) =>
        match r1.dropWhile jsonWs with
        | ':' :: r2 =>
          match parseJVal fuel r2 with
          | none => none
          | some (v, r3) =>
            match r3.dropWhile jsonWs with
            | ',' :: r4 => (parseJObjItems fuel r4).map (fun tr => ((String.mk k, v) :: tr.1, tr.2))
            | '\x7d' :: r4 => some ([(String.mk k, v)], r4)
            | _ => none
        | _ => none
    | _ => none

end

/-- `json.loads`: parse one JSON document, requiring only whitespace to
remain; any failure models the `ValueError` the Python call raises. -/
def json_loads (s : String) : Except PyError JVal :=
  match parseJVal (s.length + 1) s.data with
  | some (v, rest) => if rest.dropWhile jsonWs = [] then .ok v else .error .valueError
  | none => .error .valueError

/-- Value of a character in the standard base64 alphabet. -/
def b64Val (c : Char) : Option Nat :=
  if 'A' ≤ c ∧ c ≤ 'Z' then some (c.toNat - 65)
  else if 'a' ≤ c ∧ c ≤ 'z' then some (c.toNat - 71)
  else if '0' ≤ c ∧ c ≤ '9' then some (c.toNat + 4)
  else if c = '+' then some 62
  else if c = '/' then some 63
  else none

/-- `base64.b64decode` first discards every character that is neither in the
alphabet nor padding (its default lenient validation). -/
def b64Filter (cs : List Char) : List Char :=
  cs.filter (fun c => (b64Val c).isSome || c = '=')

/-- Decode the filtered stream as four-character quanta; `=` padding may
only close the final quantum, and a leftover short quantum is the
"incorrect padding" failure. -/
def b64DecodeQuanta : List Char → Option (List Nat)
  | [] => some []
  | [a, b, '=', '='] =>
    match b64Val a, b64Val b with
    | some av, some bv => some [av * 4 + bv / 16]
    | _, _ => none
  | [a, b, c, '='] =>
    match b64Val a, b64Val b, b64Val c with
    | some av, some bv, some cv => some [av * 4 + bv / 16, bv % 16 * 16 + cv / 4]
    | _, _, _ => none
  | a :: b :: c :: d :: rest =>
    match b64Val a, b64Val b, b64Val c, b64Val d with
    | some av, some bv, some cv, some dv =>
      (b64DecodeQuanta rest).map
        (fun bs => (av * 4 + bv / 16) :: (bv % 16 * 16 + cv / 4) :: (cv % 4 * 64 + dv) :: bs)
    | _, _, _, _ => none
  | _ => none

/-- `base64.b64decode` on a Python `str`: the string is first encoded as
ASCII (a non-ASCII character raises), then decoded leniently; a malformed
stream raises `binascii.Error`. -/
def b64decode (s : String) : Except PyError (List Nat) :=
  if s.data.any (fun c => 128 ≤ c.toNat) then .error .valueError
  else
    match b64DecodeQuanta (b64Filter s.data) with
    | some bs => .ok bs
    | none => .error .binasciiError

/-- Strict UTF-8 decoding of a byte list ( `bytes.decode("utf-8")` ),
rejecting overlong forms, surrogates and out-of-range code points. -/
def utf8DecodeL : List Nat → Option (List Char)
  | [] => some []
  | a :: rest =>
    if a < 128 then (utf8DecodeL rest).map (Char.ofNat a :: ·)
    else if 192 ≤ a ∧ a < 224 then
      match rest with
      | b :: rest' =>
        if 128 ≤ b ∧ b < 192 then
          let n := (a - 192) * 64 + (b - 128)
          if 128 ≤ n then (utf8DecodeL rest').map (Char.ofNat n :: ·) else none
        else none
      | _ => none
    else if 224 ≤ a ∧ a < 240 then
      match rest with
      | b :: c :: rest' =>
        if (128 ≤ b ∧ b < 192) ∧ (128 ≤ c ∧ c < 192) then
          let n := (a - 224) * 4096 + (b - 128) * 64 + (c - 128)
          if 2048 ≤ n ∧ (n < 55296 ∨ 57344 ≤ n) then (utf8DecodeL rest').map (Char.ofNat n :: ·)
          else none
        else none
      | _ => none
    else if 240 ≤ a ∧ a < 245 then
      match rest with
      | b :: c :: d :: rest' =>
        if (128 ≤ b ∧ b < 192) ∧ (128 ≤ c ∧ c < 192) ∧ (128 ≤ d ∧ d < 192) then
          let n := (a - 240) * 262144 + (b - 128) * 4096 + (c - 128) * 64 + (d - 128)
          if 65536 ≤ n ∧ n < 1114112 then (utf8DecodeL rest').map (Char.ofNat n :: ·)
          else none
        else none
      | _ => none
    else none

/-- `bytes.decode("utf-8")`, raising `UnicodeDecodeError` on invalid input. -/
def utf8decode (bs : List Nat) : Except PyError String :=
  match utf8DecodeL bs with
  | some cs => .ok (String.mk cs)
  | none => .error .unicodeError

mutual

/-- An ElementTree element: tag, attributes in document order, the text
before the first child, and the children. -/
inductive XElem where
  | mk (tag : String) (attrs : List (String × String)) (text : String) (children : XChildren)

/-- A children list; each child carries its tail text (the text between it
and the next sibling), exactly as ElementTree stores it. -/
inductive XChildren where
  | nil
  | cons (child : XElem) (tail : String) (rest : XChildren)

end

/-- Tag of an element. -/
def XElem.tag : XElem → String
  | .mk t _ _ _ => t

/-- Attributes of an element. -/
def XElem.attrs : XElem → List (String × String)
  | .mk _ a _ _ => a

/-- Text of an element (before its first child). -/
def XElem.text : XElem → String
  | .mk _ _ t _ => t

/-- Children of an element. -/
def XElem.children : XElem → XChildren
  | .mk _ _ _ c => c

/-- Whether a children list is empty. -/
def XChildren.isNil : XChildren → Bool
  | .nil => true
  | .cons _ _ _ => false

/-- ElementTree character-data escaping (for text and tails). -/
def escapeCdataChar (c : Char) : List Char :=
  if c = '&' then "&amp;".data
  else if c = '<' then "&lt;".data
  else if c = '>' then "&gt;".data
  else [c]

/-- Escaped rendering of a text run. -/
def escapeCdata (s : String) : List Char := s.data.flatMap escapeCdataChar

/-- ElementTree attribute-value escaping. -/
def escapeAttribChar (c : Char) : List Char :=
  if c = '&' then "&amp;".data
  else if c = '<' then "&lt;".data
  else if c = '>' then "&gt;".data
  else if c = '"' then "&quot;".data
  else if c = '\r' then "&#13;".data
  else if c = '\n' then "&#10;".data
  else if c = '\t' then "&#09;".data
  else [c]

/-- Escaped rendering of an attribute value. -/
def escapeAttrib (s : String) : List Char := s.data.flatMap escapeAttribChar

/-- Serialized attribute list: a space, then `name="value"`, per attribute. -/
def serAttrs (attrs : List (String × String)) : List Char :=
  attrs.flatMap (fun kv => ' ' :: kv.1.data ++ '=' :: '"' :: escapeAttrib kv.2 ++ ['"'])

mutual

/-- ElementTree serialization of one element, after its opening `<`: the
short form `tag />` when there is no text and no child, the full form
`tag>…</tag>` otherwise. -/
def serElemBody : XElem → List Char
  | .mk tag attrs text ch =>
    if text = "" ∧ ch.isNil then
      tag.data ++ serAttrs attrs ++ [' ', '/', '>']
    else
      tag.data ++ serAttrs attrs ++ '>' :: escapeCdata text ++ serChildren ch
        ++ '<' :: '/' :: tag.data ++ ['>']

/-- Serialization of a children list, each child followed by its tail. -/
def serChildren : XChildren → List Char
  | .nil => []
  | .cons e tail rest => '<' :: serElemBody e ++ escapeCdata tail ++ serChildren rest

end

/-- ElementTree serialization of one element. -/
def serElem (e : XElem) : List Char := '<' :: serElemBody e

/-- `ET.tostring(root, encoding="utf-8", xml_declaration=True).decode("utf-8")`:
the fixed single-quoted declaration ElementTree writes, a newline, and the
serialized root. -/
def ET_tostring_decl (e : XElem) : String :=
  String.mk ("<?xml version='1.0' encoding='utf-8'?>\n".data ++ serElem e)

/-- Characters accepted in an element or attribute name (an ASCII-centred
subset of the XML name characters). -/
def nameChar (c : Char) : Bool :=
  c.isAlpha || c.isDigit || c = '-' || c = '_' || c = '.' || c = ':'

/-- XML whitespace. -/
def xmlWs (c : Char) : Bool := c = ' ' || c = '\t' || c = '\n' || c = '\r'

/-- An entity reference, the `&` already consumed: the five predefined
entities and decimal character references. -/
def readEntity : List Char → Option (Char × List Char)
  | 'a' :: 'm' :: 'p' :: ';' :: rest => some ('&', rest)
  | 'l' :: 't' :: ';' :: rest => some ('<', rest)
  | 'g' :: 't' :: ';' :: rest => some ('>', rest)
  | 'q' :: 'u' :: 'o' :: 't' :: ';' :: rest => some ('"', rest)
  | 'a' :: 'p' :: 'o' :: 's' :: ';' :: rest => some (Char.ofNat 39, rest)
  | '#' :: rest =>
    match readDigits rest with
    | ([], _) => none
    | (ds, r) =>
      match r with
      | ';' :: r' =>
        let n := digitsToNat ds
        if (n < 55296 ∨ 57344 ≤ n) ∧ n < 1114112 then some (Char.ofNat n, r') else none
      | _ => none
  | _ => none

/-- Character data until `<` or end of input, entity references resolved. -/
def scanText : Nat → List Char → Option (List Char × List Char)
  | 0, _ => none
  | _+1, [] => some ([], [])
  | fuel+1, c :: rest =>
    if c = '<' then some ([], c :: rest)
    else if c = '&' then
      match readEntity rest with
      | none => none
      | some (c', rest') => (scanText fuel rest').map (fun tr => (c' :: tr.1, tr.2))
    else (scanText fuel rest).map (fun tr => (c :: tr.1, tr.2))

/-- An attribute value up to the closing quote; a raw `<` is malformed. -/
def scanValue (q : Char) : Nat → List Char → Option (List Char × List Char)
  | 0, _ => none
  | _+1, [] => none
  | fuel+1, c :: rest =>
    if c = q then some ([], rest)
    else if c = '<' then none
    else if c = '&' then
      match readEntity rest with
      | none => none
      | some (c', rest') => (scanValue q fuel rest').map (fun tr => (c' :: tr.1, tr.2))
    else (scanValue q fuel rest).map (fun tr => (c :: tr.1, tr.2))

/-- The attribute list of a start tag, stopping before the `>` or `/>`
terminator; whitespace-separated `name="value"` (or single-quoted) pairs. -/
def scanAttrs : Nat → List Char → Option (List (String × String) × List Char)
  | 0, _ => none
  | fuel+1, cs =>
    match cs.dropWhile xmlWs with
    | [] => none
    | c :: rest =>
      if c = '>' || c = '/' then some ([], c :: rest)
      else
        let nm := (c :: rest).takeWhile nameChar
        let r1 := (c :: rest).dropWhile nameChar
        if nm.isEmpty then none
        else
          match r1.dropWhile xmlWs with
          | '=' :: r2 =>
            match r2.dropWhile xmlWs with
            | q :: r3 =>
              if q = '"' || q = Char.ofNat 39 then
                match scanValue q fuel r3 with
                | none => none
                | some (v, r4) =>
                  (scanAttrs fuel r4).map (fun tr => ((String.mk nm, String.mk v) :: tr.1, tr.2))
              else none
            | [] => none
          | _ => none

mutual

/-- An element, its `<` already consumed: name, attributes, then either a
self-closing `/>` or `>`, content, and the matching end tag. -/
def parseElemAfterLt : Nat → List Char → Option (XElem × List Char)
  | 0, _ => none
  | fuel+1, cs =>
    let nm := cs.takeWhile nameChar
    let r1 := cs.dropWhile nameChar
    if nm.isEmpty then none
    else
      match scanAttrs fuel r1 with
      | none => none
      | some (attrs, r2) =>
        match r2 with
        | '/' :: '>' :: r3 => some (.mk (String.mk nm) attrs "" .nil, r3)
        | '>' :: r3 =>
          match parseContent fuel r3 with
          | none => none
          | some (text, ch, r4) =>
            match r4 with
            | '<' :: '/' :: r5 =>
              let cnm := r5.takeWhile nameChar
              let r6 := r5.dropWhile nameChar
              if cnm = nm then
                match r6.dropWhile xmlWs with
                | '>' :: r7 => some (.mk (String.mk nm) attrs (String.mk text) ch, r7)
                | _ => none
              else none
            | _ => none
        | _ => none

/-- Element content: the leading text, then children each followed by their
tail text, stopping before a closing `</` (or at end of input). -/
def parseContent : Nat → List Char → Option (List Char × XChildren × List Char)
  | 0, _ => none
  | fuel+1, cs =>
    match scanText fuel cs with
    | none => none
    | some (text, r) =>
      match r with
      | [] => some (text, .nil, [])
      | c :: r1 =>
        if c = '<' then
          match r1 with
          | [] => none
          | c2 :: r2 =>
            if c2 = '/' then some (text, .nil, c :: c2 :: r2)
            else
              match parseElemAfterLt fuel (c2 :: r2) with
              | none => none
              | some (e, r3) =>
                match parseContent fuel r3 with
                | none => none
                | some (tail, ch, r4) => some (text, .cons e (String.mk tail) ch, r4)
        else some (text, .nil, c :: r1)

end

/-- Skip the tail of an initial `<?...?>` declaration. -/
def dropToDeclEnd : List Char → Option (List Char)
  | [] => none
  | '?' :: '>' :: rest => some rest
  | _ :: rest => dropToDeclEnd rest

/-- `ET.fromstring` for the markup subset this development models: an
optional XML declaration, optional whitespace, one root element, optional
trailing whitespace. Any other shape is a `ParseError`. -/
def ET_fromstring (s : String) : Except Unit XElem :=
  let afterDecl : Option (List Char) :=
    match s.data with
    | '<' :: '?' :: rest => dropToDeclEnd rest
    | cs => some cs
  match afterDecl with
  | none => .error ()
  | some cs1 =>
    match cs1.dropWhile xmlWs with
    | '<' :: rest =>
      match parseElemAfterLt (s.length + 1) rest with
      | some (e, r) => if r.dropWhile xmlWs = [] then .ok e else .error ()
      | none => .error ()
    | _ => .error ()

/-- `root.find(t)`: the first direct child whose tag is `t`. -/
def XChildren.findTag : XChildren → String → Option XElem
  | .nil, _ => none
  | .cons e _ rest, t => if e.tag = t then some e else XChildren.findTag rest t

/-- `root.remove(el)` applied to the element `root.find(t)` returned: drops
the first direct child with that tag, together with its tail text (the tail
is stored on the removed child, so it is lost). -/
def XChildren.removeFirstTag : XChildren → String → XChildren
  | .nil, _ => .nil
  | .cons e tail rest, t =>
    if e.tag = t then rest else .cons e tail (XChildren.removeFirstTag rest t)

/-- Lines 128-130 of `get_netlist`: find the first direct `nets` child and
remove it when present. -/
def stripNets (root : XElem) : XElem :=
  match root.children.findTag "nets" with
  | none => root
  | some _ => .mk root.tag root.attrs root.text (root.children.removeFirstTag "nets")

mutual

/-- Number of `nets`-tagged elements in a tree, the root included. -/
def XElem.netsCount : XElem → Nat
  | .mk tag _ _ ch => (if tag = "nets" then 1 else 0) + ch.netsCount

/-- Number of `nets`-tagged elements below a children list. -/
def XChildren.netsCount : XChildren → Nat
  | .nil => 0
  | .cons e _ rest => e.netsCount + rest.netsCount

end

/-- A name the modelled parser can reproduce. -/
def nameOk (s : String) : Bool := !s.data.isEmpty && s.data.all nameChar

mutual

/-- Trees whose names are parser-representable: every tree produced by
`ET_fromstring` satisfies this, and serialization round-trips on it. -/
def XElem.wf : XElem → Bool
  | .mk tag attrs _ ch => nameOk tag && attrs.all (fun kv => nameOk kv.1) && ch.wf

/-- Well-formedness of a children list. -/
def XChildren.wf : XChildren → Bool
  | .nil => true
  | .cons e _ rest => e.wf && rest.wf

end

/-- Outcome of one request/reply exchange on the pynng Req0 socket, seen
from inside the client's `try` blocks: the reply bytes (as text), a
`pynng.exceptions.Timeout`, or any other exception raised during send or
receive. -/
inductive Xfer where
  | reply (bytes : String)
  | timeout
  | failure (msg : String)

/-- A transport models the socket at one point in time: the reply outcome
as a function of the bytes put on the wire. -/
abbrev Transport : Type := String → Xfer

/-- The request object `KiCadClient.cpp_sdk_action` builds
(src/main.py lines 203-212). -/
def cpp_sdk_request (api_name : String) (params : JVal) (cmd_type : String) : JVal :=
  .obj [("cmd", .str cmd_type),
        ("params", .obj [("action", .str "cpp_sdk_api"),
                         ("context", .obj [("api", .str api_name), ("parameter", params)])])]

/-- The bytes `cpp_sdk_action` puts on the wire (src/main.py line 215). -/
def cpp_sdk_sent (api_name : String) (params : JVal) (cmd_type : String) : String :=
  (cpp_sdk_request api_name params cmd_type).dumps

/-- `KiCadClient.cpp_sdk_action` (src/main.py lines 182-230): serialize the
request, send it, receive and JSON-decode the reply, and return the decoded
envelope; `except pynng.exceptions.Timeout` and `except Exception` convert
every failure raised inside the block — during send, receive, or decode —
to `None`. -/
def cpp_sdk_action (transport : Transport) (api_name : String) (params : JVal)
    (cmd_type : String := "cpp_sdk_action") : Option JVal :=
  match transport (cpp_sdk_sent api_name params cmd_type) with
  | .reply bytes =>
    match json_loads bytes with
    | .ok response => some response
    | .error _ => none
  | .timeout => none
  | .failure _ => none

/-- The XML stage of `get_netlist` (src/main.py lines 126-140): parse the
decoded text, strip the first direct `nets` child, re-serialize with an XML
declaration; `except ET.ParseError` returns the raw text instead. -/
def netlist_xml_phase (xml_content : String) : String :=
  match ET_fromstring xml_content with
  | .ok root => ET_tostring_decl (stripNets root)
  | .error _ => xml_content

/-- The bare netlist command `get_netlist` sends (src/main.py line 108). -/
def netlist_request : JVal := .obj [("cmd", .str "netlist")]

/-- `KiCadClient.get_netlist` (src/main.py lines 103-147): send the bare
netlist command, JSON-decode the reply, read its top-level `net_list`
field, base64-decode it, and run the XML stage. A timeout or any other
exception raised in the outer block returns `None`; only the XML
`ParseError` has the raw-text fallback. -/
def get_netlist (transport : Transport) : Option String :=
  match transport netlist_request.dumps with
  | .timeout => none
  | .failure _ => none
  | .reply bytes =>
    match json_loads bytes with
    | .error _ => none
    | .ok response =>
      match response with
      | .obj fields =>
        match lookupLast fields "net_list" with
        | none => none
        | some v =>
          if v.falsy then none
          else
            match v with
            | .str payload =>
              match b64decode payload with
              | .error _ => none
              | .ok bs =>
                match utf8decode bs with
                | .error _ => none
                | .ok xml_content => some (netlist_xml_phase xml_content)
            | _ => none
      | _ => none

/-- The request object `KiCadClient.place_net_label` builds
(src/main.py lines 155-158). -/
def place_netlabels_request (net_params : JVal) : JVal :=
  .obj [("cmd", .str "placeNetLabels"),
        ("params", .obj [("action", .str "place_netlabels"), ("context", net_params)])]

/-- The bytes `place_net_label` puts on the wire. The function first reads
`net_params["net_name"]` (line 152); when that lookup raises, nothing is
sent, which `none` records here. -/
def place_net_label_sent (net_params : JVal) : Option String :=
  match net_params.lookup "net_name" with
  | none => none
  | some _ => some (place_netlabels_request net_params).dumps

/-- Python's `needle not in v` for a decoded JSON value: key test on a
dict, element test on a list, substring test on a string; on `None`, a
boolean or a number the operator raises `TypeError`. -/
def pyNotIn (needle : String) : JVal → Except PyError Bool
  | .obj kvs => .ok (!(kvs.any (fun kv => kv.1 = needle)))
  | .arr xs => .ok (!(xs.any (fun x => x == JVal.str needle)))
  | .str s => .ok (!(s.data.tails.any (fun t => needle.data.isPrefixOf t)))
  | _ => .error .typeError

/-- Python's `v[k]` for a decoded JSON value: dict subscript, `KeyError`
when absent, `TypeError` on every non-dict shape. -/
def pySubscript (v : JVal) (k : String) : Except PyError JVal :=
  match v with
  | .obj kvs =>
    match lookupLast kvs k with
    | some x => .ok x
    | none => .error .keyError
  | _ => .error .typeError

/-- The body shared verbatim by `query_symbol_library` (src/main.py lines
896-903) and `query_pcb_layer_names` (lines 1505-1512), which differ only
in the operation name: the `KICAD_CLIENT is None` guard logs but does not
return, the dispatcher is called as a query, the reply is tested for a
`msg` field (logging and returning `None` when it is missing), and the
`msg` string is JSON-decoded. `Except.error` marks an exception escaping
the tool; `Except.ok none` is the tool returning `None`. -/
def query_tool_body (client : Option Transport) (api_name : String) :
    Except PyError (Option JVal) :=
  match client with
  | none => .error .attributeError
  | some transport =>
    match cpp_sdk_action transport api_name (.obj []) "cpp_sdk_query" with
    | none => .error .typeError
    | some response =>
      match pyNotIn "msg" response with
      | .error e => .error e
      | .ok true => .ok none
      | .ok false =>
        match pySubscript response "msg" with
        | .error e => .error e
        | .ok msg =>
          match msg with
          | .str s =>
            match json_loads s with
            | .ok v => .ok (some v)
            | .error e => .error e
          | _ => .error .typeError

/-- `query_symbol_library` (src/main.py lines 896-903). -/
def query_symbol_library (client : Option Transport) : Except PyError (Option JVal) :=
  query_tool_body client "getSymbolLibrary"

/-- `query_pcb_layer_names` (src/main.py lines 1505-1512). -/
def query_pcb_layer_names (client : Option Transport) : Except PyError (Option JVal) :=
  query_tool_body client "queryLayerNames"

/-- `draw_circle` (src/main.py lines 402-438). The `KICAD_CLIENT is None`
guard on line 435 logs but does not return, so line 438 dereferences the
unset global and raises `AttributeError`. -/
def draw_circle (client : Option Transport) (circle : JVal) :
    Except PyError (Option JVal) :=
  match client with
  | none => .error .attributeError
  | some transport => .ok (cpp_sdk_action transport "drawCircle" circle)

/-- `saveFrame` (src/main.py lines 1810-1838); the same guard without a
return, followed by the dispatcher call on the unset global. -/
def saveFrame (client : Option Transport) : Except PyError (Option JVal) :=
  match client with
  | none => .error .attributeError
  | some transport => .ok (cpp_sdk_action transport "saveFrame" (.obj []))

/-- Following the spec's words (§6, generic wire shape): the serialized
form of a generic action or query command. -/
def spec_generic_envelope (operationName : String) (record : JVal) (cmd : String) : JVal :=
  .obj [("cmd", .str cmd),
        ("params", .obj [("action", .str "cpp_sdk_api"),
                         ("context", .obj [("api", .str operationName),
                                           ("parameter", record)])])]

/-- Following the spec's words (§6, legacy action wire shape), at the fixed
name `placeNetLabels` and action name `place_netlabels` of the net-label
command. -/
def spec_legacy_envelope (record : JVal) : JVal :=
  .obj [("cmd", .str "placeNetLabels"),
        ("params", .obj [("action", .str "place_netlabels"), ("context", record)])]

/-- Sample well-formed document with a `nets` child, for the concrete
netlist scenario. -/
def sample_doc : String := "<export><components /><nets><net /></nets></export>"

/-- Base64 encoding of `sample_doc`. -/
def sample_b64 : String := "PGV4cG9ydD48Y29tcG9uZW50cyAvPjxuZXRzPjxuZXQgLz48L25ldHM+PC9leHBvcnQ+"

/-- The netlist reply envelope exactly as the spec's scenario words it:
the payload nested under `msg`. -/
def nested_reply : String :=
  "\x7b\"status\": \"ok\", \"msg\": \x7b\"net_list\": \"" ++ sample_b64 ++ "\"\x7d\x7d"

/-- A server that answers the bare netlist command with the nested envelope
and fails on any other request. -/
def nested_reply_transport : Transport := fun req =>
  if req = netlist_request.dumps then .reply nested_reply else .failure "unexpected request"

/-- The same reply with the payload at the envelope's top level, where
`get_netlist` actually reads it. -/
def flat_reply : String :=
  "\x7b\"status\": \"ok\", \"net_list\": \"" ++ sample_b64 ++ "\"\x7d"

/-- A server that answers the bare netlist command with the flat envelope
and fails on any other request. -/
def flat_reply_transport : Transport := fun req =>
  if req = netlist_request.dumps then .reply flat_reply else .failure "unexpected request"

/-- A well-formed document whose only `nets` element sits one level below
the root, so `root.find("nets")` does not see it. -/
def nested_nets_doc : String := "<r><a><nets /></a></r>"

/-- Base64 encoding of `nested_nets_doc`. -/
def nested_nets_b64 : String := "PHI+PGE+PG5ldHMgLz48L2E+PC9yPg=="

/-- A server offering `nested_nets_doc` as the netlist payload. -/
def nested_nets_transport : Transport := fun _ =>
  .reply ("\x7b\"net_list\": \"" ++ nested_nets_b64 ++ "\"\x7d")

/-- A well-formed document with exactly one `nets` element, a direct child
of the root. -/
def direct_nets_doc : String := "<export><components /><nets /></export>"

/-- Base64 encoding of `direct_nets_doc`. -/
def direct_nets_b64 : String := "PGV4cG9ydD48Y29tcG9uZW50cyAvPjxuZXRzIC8+PC9leHBvcnQ+"

/-- A server offering `direct_nets_doc` as the netlist payload. -/
def direct_nets_transport : Transport := fun _ =>
  .reply ("\x7b\"net_list\": \"" ++ direct_nets_b64 ++ "\"\x7d")

/-- The parse tree of `direct_nets_doc`. -/
def direct_nets_root : XElem :=
  .mk "export" [] ""
    (.cons (.mk "components" [] "" .nil) ""
      (.cons (.mk "nets" [] "" .nil) "" .nil))

/-- C1: for every operation name, parameter record and call kind, the
dispatcher `cpp_sdk_action` either returns the decoded reply envelope the
transport delivered, or `None`; a timeout, any other transport failure, and
a reply that fails JSON decoding are all caught inside the dispatcher and
converted to `None`, so no call terminates with an uncaught fault. -/
theorem C1_dispatcher_never_faults (t : Transport) (a : String) (p : JVal) (k : String) :
    (∃ bytes r, t (cpp_sdk_sent a p k) = .reply bytes ∧ json_loads bytes = .ok r ∧
        cpp_sdk_action t a p k = some r) ∨
      cpp_sdk_action t a p k = none := by
  cases ht : t (cpp_sdk_sent a p k) with
  | reply bytes =>
    cases hj : json_loads bytes with
    | ok r => exact .inl ⟨bytes, r, rfl, hj, by simp [cpp_sdk_action, ht, hj]⟩
    | error e => exact .inr (by simp [cpp_sdk_action, ht, hj])
  | timeout => exact .inr (by simp [cpp_sdk_action, ht])
  | failure m => exact .inr (by simp [cpp_sdk_action, ht])

/-- C3: a reply whose `net_list` payload base64-decodes to text that is not
valid XML makes `get_netlist` return exactly that decoded text, verbatim —
not `None` and not an error. -/
theorem C3_parse_failure_returns_raw_text (t : Transport) (b payload : String)
    (bs : List Nat) (raw : String)
    (ht : t netlist_request.dumps = .reply b)
    (hj : json_loads b = .ok (.obj [("net_list", .str payload)]))
    (hne : payload.isEmpty = false)
    (hb : b64decode payload = .ok bs)
    (hu : utf8decode bs = .ok raw)
    (hparse : ET_fromstring raw = .error ()) :
    get_netlist t = some raw := by
  simp [get_netlist, ht, hj, lookupLast, JVal.falsy, hne, hb, hu, netlist_xml_phase, hparse]

/-- C3 witness: the payload decodes to the text `hello`, which is not XML,
and the pipeline hands back exactly `hello`. -/
theorem C3_witness :
    json_loads "\x7b\"net_list\": \"aGVsbG8=\"\x7d" = .ok (.obj [("net_list", .str "aGVsbG8=")]) ∧
      b64decode "aGVsbG8=" = .ok [104, 101, 108, 108, 111] ∧
      utf8decode [104, 101, 108, 108, 111] = .ok "hello" ∧
      ET_fromstring "hello" = .error () ∧
      get_netlist (fun _ => .reply "\x7b\"net_list\": \"aGVsbG8=\"\x7d") = some "hello" :=
  ⟨rfl, rfl, rfl, rfl,
    C3_parse_failure_returns_raw_text (fun _ => .reply "\x7b\"net_list\": \"aGVsbG8=\"\x7d")
      _ "aGVsbG8=" [104, 101, 108, 108, 111] "hello" rfl rfl rfl rfl rfl rfl⟩

/-- C4 counterexample: in the claim's exact scenario — the server answers
the bare netlist command with the payload nested under `msg` —
`get_netlist` reads only the top-level `net_list` field, finds nothing, and
returns `None` rather than the sanitized document. -/
theorem C4_counterexample : get_netlist nested_reply_transport = none := rfl

/-- C4 amended: the same scenario with the `net_list` payload at the top
level of the reply envelope (where `get_netlist` reads it): the pipeline
returns the same document minus the `nets` element, re-serialized with an
XML declaration. -/
theorem C4_amended_flat_envelope :
    get_netlist flat_reply_transport
      = some "<?xml version='1.0' encoding='utf-8'?>\n<export><components /></export>" := rfl

/-- C5: the code contradicts the claim (and the tools' own docstrings):
with the global client unset, `draw_circle` and `saveFrame` raise
`AttributeError` out of the tool instead of returning `None`, because the
`KICAD_CLIENT is None` guard only logs and does not return. -/
theorem C5_uninitialized_call_raises :
    draw_circle none (.obj [("center", .obj [("x", .num 0), ("y", .num 0)]), ("radius", .num 5)])
        = .error .attributeError ∧
      saveFrame none = .error .attributeError := ⟨rfl, rfl⟩

/-- C6: for query-kind calls, a reply envelope that lacks the `msg` field
makes the tool log the violation and return `None` — for both
`query_symbol_library` and `query_pcb_layer_names`. -/
theorem C6_missing_msg_returns_none (t : Transport) (fields : List (String × JVal))
    (h1 : cpp_sdk_action t "getSymbolLibrary" (.obj []) "cpp_sdk_query" = some (.obj fields))
    (h2 : cpp_sdk_action t "queryLayerNames" (.obj []) "cpp_sdk_query" = some (.obj fields))
    (hmiss : fields.any (fun kv => kv.1 = "msg") = false) :
    query_symbol_library (some t) = .ok none ∧ query_pcb_layer_names (some t) = .ok none := by
  constructor <;>
    simp [query_symbol_library, query_pcb_layer_names, query_tool_body, h1, h2, pyNotIn, hmiss]

/-- C6 witness: a reply envelope carrying only `status` (no `msg`) makes
both query tools return `None`. -/
theorem C6_witness :
    cpp_sdk_action (fun _ => .reply "\x7b\"status\": \"ok\"\x7d") "getSymbolLibrary"
        (.obj []) "cpp_sdk_query" = some (.obj [("status", .str "ok")]) ∧
      query_symbol_library (some (fun _ => .reply "\x7b\"status\": \"ok\"\x7d")) = .ok none ∧
      query_pcb_layer_names (some (fun _ => .reply "\x7b\"status\": \"ok\"\x7d")) = .ok none := by
  have h := C6_missing_msg_returns_none (fun _ => .reply "\x7b\"status\": \"ok\"\x7d")
    [("status", .str "ok")] rfl rfl rfl
  exact ⟨rfl, h.1, h.2⟩

/-- C7: the generic dispatcher puts exactly the spec's generic envelope on
the wire (for every operation name, parameter record and command kind),
and `place_net_label` puts exactly the spec's legacy envelope on the wire
for every context record carrying a `net_name`. -/
theorem C7_wire_shapes (a k : String) (p c : JVal)
    (h : ∃ v, c.lookup "net_name" = some v) :
    cpp_sdk_sent a p k = (spec_generic_envelope a p k).dumps ∧
      place_net_label_sent c = some (spec_legacy_envelope c).dumps := by
  obtain ⟨v, hv⟩ := h
  exact ⟨rfl, by simp [place_net_label_sent, hv, place_netlabels_request, spec_legacy_envelope]⟩

/-- C7 witness: a `drawCircle` action and a `VCC` net-label context. -/
theorem C7_witness :
    (JVal.obj [("net_name", .str "VCC"), ("pins", .arr [])]).lookup "net_name"
        = some (.str "VCC") ∧
      cpp_sdk_sent "drawCircle" (.obj []) "cpp_sdk_action"
        = (spec_generic_envelope "drawCircle" (.obj []) "cpp_sdk_action").dumps ∧
      place_net_label_sent (.obj [("net_name", .str "VCC"), ("pins", .arr [])])
        = some (spec_legacy_envelope (.obj [("net_name", .str "VCC"), ("pins", .arr [])])).dumps := by
  refine ⟨rfl, ?_, ?_⟩
  · exact (C7_wire_shapes "drawCircle" "cpp_sdk_action" (.obj [])
      (.obj [("net_name", .str "VCC"), ("pins", .arr [])]) ⟨.str "VCC", rfl⟩).1
  · exact (C7_wire_shapes "drawCircle" "cpp_sdk_action" (.obj [])
      (.obj [("net_name", .str "VCC"), ("pins", .arr [])]) ⟨.str "VCC", rfl⟩).2

/-- C8: when the `net_list` payload itself fails base64 decoding, the
raised `binascii.Error` is caught by `get_netlist`'s outer handler and the
call returns `None` — the raw-text fallback applies only to XML parse
failures. -/
theorem C8_bad_base64_returns_none (t : Transport) (b payload : String) (e : PyError)
    (ht : t netlist_request.dumps = .reply b)
    (hj : json_loads b = .ok (.obj [("net_list", .str payload)]))
    (hne : payload.isEmpty = false)
    (hdec : b64decode payload = .error e) :
    get_netlist t = none := by
  simp [get_netlist, ht, hj, lookupLast, JVal.falsy, hne, hdec]

/-- C8 witness: the three-character payload `abc` has incorrect base64
padding; decoding raises and the pipeline returns `None`. -/
theorem C8_witness :
    json_loads "\x7b\"net_list\": \"abc\"\x7d" = .ok (.obj [("net_list", .str "abc")]) ∧
      b64decode "abc" = .error .binasciiError ∧
      get_netlist (fun _ => .reply "\x7b\"net_list\": \"abc\"\x7d") = none :=
  ⟨rfl, rfl,
    C8_bad_base64_returns_none (fun _ => .reply "\x7b\"net_list\": \"abc\"\x7d")
      _ "abc" .binasciiError rfl rfl rfl rfl⟩

/-- C9: when the dispatcher returns `None` (after a timeout or any other
transport failure), the query tools' `"msg" not in response` test raises
an uncaught `TypeError`, so the tool call terminates with a fault rather
than returning `None`. -/
theorem C9_query_tools_fault_on_none (t : Transport)
    (h1 : cpp_sdk_action t "getSymbolLibrary" (.obj []) "cpp_sdk_query" = none)
    (h2 : cpp_sdk_action t "queryLayerNames" (.obj []) "cpp_sdk_query" = none) :
    query_symbol_library (some t) = .error .typeError ∧
      query_pcb_layer_names (some t) = .error .typeError := by
  constructor <;> simp [query_symbol_library, query_pcb_layer_names, query_tool_body, h1, h2]

/-- C9 witness: a transport that times out makes both query tools fault
with `TypeError`. -/
theorem C9_witness :
    cpp_sdk_action (fun _ => .timeout) "getSymbolLibrary" (.obj []) "cpp_sdk_query" = none ∧
      query_symbol_library (some (fun _ => .timeout)) = .error .typeError ∧
      query_pcb_layer_names (some (fun _ => .timeout)) = .error .typeError := by
  have h := C9_query_tools_fault_on_none (fun _ => .timeout) rfl rfl
  exact ⟨rfl, h.1, h.2⟩

/-- C10: a present-but-falsy `net_list` payload (such as the empty string)
is treated exactly like a missing payload field: `get_netlist` returns
`None` in both cases, before any base64 or XML work. -/
theorem C10_falsy_netlist_like_missing (t t' : Transport) (b b' : String) (v : JVal)
    (ht : t netlist_request.dumps = .reply b)
    (hj : json_loads b = .ok (.obj [("net_list", v)]))
    (hv : v.falsy = true)
    (ht' : t' netlist_request.dumps = .reply b')
    (hj' : json_loads b' = .ok (.obj [])) :
    get_netlist t = none ∧ get_netlist t' = none := by
  constructor
  · simp [get_netlist, ht, hj, lookupLast, hv]
  · simp [get_netlist, ht', hj', lookupLast]

/-- C10 witness: an empty-string payload and an empty envelope both yield
`None`. -/
theorem C10_witness :
    json_loads "\x7b\"net_list\": \"\"\x7d" = .ok (.obj [("net_list", .str "")]) ∧
      (JVal.str "").falsy = true ∧
      get_netlist (fun _ => .reply "\x7b\"net_list\": \"\"\x7d") = none ∧
      get_netlist (fun _ => .reply "\x7b\x7d") = none := by
  have h := C10_falsy_netlist_like_missing
    (fun _ => .reply "\x7b\"net_list\": \"\"\x7d") (fun _ => .reply "\x7b\x7d")
    _ _ (.str "") rfl rfl rfl rfl rfl
  exact ⟨rfl, rfl, h.1, h.2⟩

/-! Round-trip infrastructure for the sanitization claim: serializing any
well-formed tree and parsing it back is the identity. -/

theorem all_takeWhile (p : Char → Bool) : ∀ l : List Char, (l.takeWhile p).all p = true := by
  intro l
  induction l with
  | nil => rfl
  | cons c r ih => cases hc : p c <;> simp [List.takeWhile_cons, hc, ih]

theorem takeWhile_append_all (p : Char → Bool) : ∀ (l rest : List Char),
    l.all p = true → (∀ c r, rest = c :: r → p c = false) →
    (l ++ rest).takeWhile p = l ∧ (l ++ rest).dropWhile p = rest := by
  intro l
  induction l with
  | nil =>
    intro rest _ hr
    cases rest with
    | nil => simp
    | cons c r => simp [List.takeWhile_cons, List.dropWhile_cons, hr c r rfl]
  | cons c l ih =>
    intro rest hl hr
    rw [List.all_cons, Bool.and_eq_true] at hl
    have h := ih rest hl.2 hr
    simp [List.takeWhile_cons, List.dropWhile_cons, hl.1, h.1, h.2]

theorem nameChar_facts {c : Char} (h : nameChar c = true) :
    xmlWs c = false ∧ c ≠ '>' ∧ c ≠ '/' ∧ c ≠ '=' ∧ c ≠ '<' ∧ c ≠ '"' := by
  refine ⟨?_, ?_, ?_, ?_, ?_, ?_⟩
  · cases hx : xmlWs c
    · rfl
    · exfalso
      simp only [xmlWs, Bool.or_eq_true, decide_eq_true_eq] at hx
      rcases hx with ((h1 | h1) | h1) | h1 <;> subst h1 <;> exact absurd h (by decide)
  all_goals intro heq; subst heq; exact absurd h (by decide)

theorem scanText_step_amp (f : Nat) (tail : List Char) :
    scanText (f + 1) ('&' :: 'a' :: 'm' :: 'p' :: ';' :: tail)
      = (scanText f tail).map (fun tr => ('&' :: tr.1, tr.2)) := by
  simp [scanText, readEntity]

theorem scanText_step_lt (f : Nat) (tail : List Char) :
    scanText (f + 1) ('&' :: 'l' :: 't' :: ';' :: tail)
      = (scanText f tail).map (fun tr => ('<' :: tr.1, tr.2)) := by
  simp [scanText, readEntity]

theorem scanText_step_gt (f : Nat) (tail : List Char) :
    scanText (f + 1) ('&' :: 'g' :: 't' :: ';' :: tail)
      = (scanText f tail).map (fun tr => ('>' :: tr.1, tr.2)) := by
  simp [scanText, readEntity]

theorem scanText_step_char (f : Nat) (c : Char) (tail : List Char)
    (h1 : ¬c = '<') (h2 : ¬c = '&') :
    scanText (f + 1) (c :: tail) = (scanText f tail).map (fun tr => (c :: tr.1, tr.2)) := by
  simp [scanText, h1, h2]

theorem scanText_ser : ∀ (l rest : List Char) (fuel : Nat),
    (l.flatMap escapeCdataChar).length < fuel →
    (rest = [] ∨ ∃ r', rest = '<' :: r') →
    scanText fuel (l.flatMap escapeCdataChar ++ rest) = some (l, rest) := by
  intro l
  induction l with
  | nil =>
    intro rest fuel hfuel hrest
    obtain ⟨f, rfl⟩ : ∃ f, fuel = f + 1 := ⟨fuel - 1, by omega⟩
    rcases hrest with rfl | ⟨r', rfl⟩
    · rfl
    · rfl
  | cons c l ih =>
    intro rest fuel hfuel hrest
    rw [List.flatMap_cons] at hfuel ⊢
    by_cases hc1 : c = '&'
    · subst hc1
      have he : escapeCdataChar '&' = '&' :: 'a' :: 'm' :: 'p' :: [';'] := rfl
      rw [he] at hfuel ⊢
      obtain ⟨f, rfl⟩ : ∃ f, fuel = f + 1 := ⟨fuel - 1, by simp at hfuel; omega⟩
      simp only [List.cons_append, List.nil_append]
      rw [scanText_step_amp, ih rest f (by simp at hfuel ⊢; omega) hrest]
      rfl
    · by_cases hc2 : c = '<'
      · subst hc2
        have he : escapeCdataChar '<' = '&' :: 'l' :: 't' :: [';'] := rfl
        rw [he] at hfuel ⊢
        obtain ⟨f, rfl⟩ : ∃ f, fuel = f + 1 := ⟨fuel - 1, by simp at hfuel; omega⟩
        simp only [List.cons_append, List.nil_append]
        rw [scanText_step_lt, ih rest f (by simp at hfuel ⊢; omega) hrest]
        rfl
      · by_cases hc3 : c = '>'
        · subst hc3
          have he : escapeCdataChar '>' = '&' :: 'g' :: 't' :: [';'] := rfl
          rw [he] at hfuel ⊢
          obtain ⟨f, rfl⟩ : ∃ f, fuel = f + 1 := ⟨fuel - 1, by simp at hfuel; omega⟩
          simp only [List.cons_append, List.nil_append]
          rw [scanText_step_gt, ih rest f (by simp at hfuel ⊢; omega) hrest]
          rfl
        · have he : escapeCdataChar c = [c] := by
            simp [escapeCdataChar, hc1, hc2, hc3]
          rw [he] at hfuel ⊢
          obtain ⟨f, rfl⟩ : ∃ f, fuel = f + 1 := ⟨fuel - 1, by simp at hfuel; omega⟩
          simp only [List.cons_append, List.nil_append]
          rw [scanText_step_char f c _ hc2 hc1, ih rest f (by simp at hfuel ⊢; omega) hrest]
          rfl

theorem scanValue_step_amp (f : Nat) (tail : List Char) :
    scanValue '"' (f + 1) ('&' :: 'a' :: 'm' :: 'p' :: ';' :: tail)
      = (scanValue '"' f tail).map (fun tr => ('&' :: tr.1, tr.2)) := rfl

theorem scanValue_step_lt (f : Nat) (tail : List Char) :
    scanValue '"' (f + 1) ('&' :: 'l' :: 't' :: ';' :: tail)
      = (scanValue '"' f tail).map (fun tr => ('<' :: tr.1, tr.2)) := rfl

theorem scanValue_step_gt (f : Nat) (tail : List Char) :
    scanValue '"' (f + 1) ('&' :: 'g' :: 't' :: ';' :: tail)
      = (scanValue '"' f tail).map (fun tr => ('>' :: tr.1, tr.2)) := rfl

theorem scanValue_step_quot (f : Nat) (tail : List Char) :
    scanValue '"' (f + 1) ('&' :: 'q' :: 'u' :: 'o' :: 't' :: ';' :: tail)
      = (scanValue '"' f tail).map (fun tr => ('"' :: tr.1, tr.2)) := rfl

theorem scanValue_step_cr (f : Nat) (tail : List Char) :
    scanValue '"' (f + 1) ('&' :: '#' :: '1' :: '3' :: ';' :: tail)
      = (scanValue '"' f tail).map (fun tr => ('\r' :: tr.1, tr.2)) := rfl

theorem scanValue_step_nl (f : Nat) (tail : List Char) :
    scanValue '"' (f + 1) ('&' :: '#' :: '1' :: '0' :: ';' :: tail)
      = (scanValue '"' f tail).map (fun tr => ('\n' :: tr.1, tr.2)) := rfl

theorem scanValue_step_tab (f : Nat) (tail : List Char) :
    scanValue '"' (f + 1) ('&' :: '#' :: '0' :: '9' :: ';' :: tail)
      = (scanValue '"' f tail).map (fun tr => ('\t' :: tr.1, tr.2)) := rfl

theorem scanValue_step_char (f : Nat) (c : Char) (tail : List Char)
    (h1 : ¬c = '"') (h2 : ¬c = '<') (h3 : ¬c = '&') :
    scanValue '"' (f + 1) (c :: tail)
      = (scanValue '"' f tail).map (fun tr => (c :: tr.1, tr.2)) := by
  simp [scanValue, h1, h2, h3]

theorem scanValue_ser : ∀ (l rest : List Char) (fuel : Nat),
    (l.flatMap escapeAttribChar).length < fuel →
    scanValue '"' fuel (l.flatMap escapeAttribChar ++ '"' :: rest) = some (l, rest) := by
  intro l
  induction l with
  | nil =>
    intro rest fuel hfuel
    obtain ⟨f, rfl⟩ : ∃ f, fuel = f + 1 := ⟨fuel - 1, by omega⟩
    rfl
  | cons c l ih =>
    intro rest fuel hfuel
    rw [List.flatMap_cons] at hfuel ⊢
    by_cases hc1 : c = '&'
    · subst hc1
      have he : escapeAttribChar '&' = '&' :: 'a' :: 'm' :: 'p' :: [';'] := rfl
      rw [he] at hfuel ⊢
      obtain ⟨f, rfl⟩ : ∃ f, fuel = f + 1 := ⟨fuel - 1, by simp at hfuel; omega⟩
      simp only [List.cons_append, List.nil_append]
      rw [scanValue_step_amp, ih rest f (by simp at hfuel ⊢; omega)]
      rfl
    · by_cases hc2 : c = '<'
      · subst hc2
        have he : escapeAttribChar '<' = '&' :: 'l' :: 't' :: [';'] := rfl
        rw [he] at hfuel ⊢
        obtain ⟨f, rfl⟩ : ∃ f, fuel = f + 1 := ⟨fuel - 1, by simp at hfuel; omega⟩
        simp only [List.cons_append, List.nil_append]
        rw [scanValue_step_lt, ih rest f (by simp at hfuel ⊢; omega)]
        rfl
      · by_cases hc3 : c = '>'
        · subst hc3
          have he : escapeAttribChar '>' = '&' :: 'g' :: 't' :: [';'] := rfl
          rw [he] at hfuel ⊢
          obtain ⟨f, rfl⟩ : ∃ f, fuel = f + 1 := ⟨fuel - 1, by simp at hfuel; omega⟩
          simp only [List.cons_append, List.nil_append]
          rw [scanValue_step_gt, ih rest f (by simp at hfuel ⊢; omega)]
          rfl
        · by_cases hc4 : c = '"'
          · subst hc4
            have he : escapeAttribChar '"' = '&' :: 'q' :: 'u' :: 'o' :: 't' :: [';'] := rfl
            rw [he] at hfuel ⊢
            obtain ⟨f, rfl⟩ : ∃ f, fuel = f + 1 := ⟨fuel - 1, by simp at hfuel; omega⟩
            simp only [List.cons_append, List.nil_append]
            rw [scanValue_step_quot, ih rest f (by simp at hfuel ⊢; omega)]
            rfl
          · by_cases hc5 : c = '\r'
            · subst hc5
              have he : escapeAttribChar '\r' = '&' :: '#' :: '1' :: '3' :: [';'] := rfl
              rw [he] at hfuel ⊢
              obtain ⟨f, rfl⟩ : ∃ f, fuel = f + 1 := ⟨fuel - 1, by simp at hfuel; omega⟩
              simp only [List.cons_append, List.nil_append]
              rw [scanValue_step_cr, ih rest f (by simp at hfuel ⊢; omega)]
              rfl
            · by_cases hc6 : c = '\n'
              · subst hc6
                have he : escapeAttribChar '\n' = '&' :: '#' :: '1' :: '0' :: [';'] := rfl
                rw [he] at hfuel ⊢
                obtain ⟨f, rfl⟩ : ∃ f, fuel = f + 1 := ⟨fuel - 1, by simp at hfuel; omega⟩
                simp only [List.cons_append, List.nil_append]
                rw [scanValue_step_nl, ih rest f (by simp at hfuel ⊢; omega)]
                rfl
              · by_cases hc7 : c = '\t'
                · subst hc7
                  have he : escapeAttribChar '\t' = '&' :: '#' :: '0' :: '9' :: [';'] := rfl
                  rw [he] at hfuel ⊢
                  obtain ⟨f, rfl⟩ : ∃ f, fuel = f + 1 := ⟨fuel - 1, by simp at hfuel; omega⟩
                  simp only [List.cons_append, List.nil_append]
                  rw [scanValue_step_tab, ih rest f (by simp at hfuel ⊢; omega)]
                  rfl
                · have he : escapeAttribChar c = [c] := by
                    simp [escapeAttribChar, hc1, hc2, hc3, hc4, hc5, hc6, hc7]
                  rw [he] at hfuel ⊢
                  obtain ⟨f, rfl⟩ : ∃ f, fuel = f + 1 := ⟨fuel - 1, by simp at hfuel; omega⟩
                  simp only [List.cons_append, List.nil_append]
                  rw [scanValue_step_char f c _ hc4 hc2 hc1, ih rest f (by simp at hfuel ⊢; omega)]
                  rfl

theorem nameOk_parts {k : String} (h : nameOk k = true) :
    k.data.isEmpty = false ∧ k.data.all nameChar = true := by
  simp only [nameOk, Bool.and_eq_true, Bool.not_eq_true'] at h
  exact ⟨h.1, h.2⟩

theorem scanAttrs_ser : ∀ (attrs : List (String × String)) (rest : List Char) (fuel : Nat),
    attrs.all (fun kv => nameOk kv.1) = true →
    (serAttrs attrs).length < fuel →
    (∃ r', rest.dropWhile xmlWs = '>' :: r' ∨ rest.dropWhile xmlWs = '/' :: r') →
    scanAttrs fuel (serAttrs attrs ++ rest) = some (attrs, rest.dropWhile xmlWs) := by
  intro attrs
  induction attrs with
  | nil =>
    intro rest fuel _ hfuel hrest
    obtain ⟨f, rfl⟩ : ∃ f, fuel = f + 1 := ⟨fuel - 1, by omega⟩
    obtain ⟨r', hr⟩ := hrest
    have h0 : serAttrs [] = ([] : List Char) := rfl
    rw [h0, List.nil_append]
    rcases hr with hr | hr <;> simp [scanAttrs, hr]
  | cons kv as ih =>
    intro rest fuel hall hfuel hrest
    obtain ⟨k, v⟩ := kv
    rw [List.all_cons, Bool.and_eq_true] at hall
    obtain ⟨hk, has⟩ := hall
    obtain ⟨hkne, hkall⟩ := nameOk_parts hk
    obtain ⟨d, ds, hd⟩ : ∃ d ds, k.data = d :: ds := by
      cases hkd : k.data with
      | nil => rw [hkd] at hkne; simp at hkne
      | cons d ds => exact ⟨d, ds, rfl⟩
    have hdchar : nameChar d = true := by
      rw [hd, List.all_cons, Bool.and_eq_true] at hkall
      exact hkall.1
    have hdsall : ds.all nameChar = true := by
      rw [hd, List.all_cons, Bool.and_eq_true] at hkall
      exact hkall.2
    have hinput : serAttrs ((k, v) :: as) ++ rest
        = ' ' :: d :: (ds ++ '=' :: '"' :: (escapeAttrib v ++ '"' :: (serAttrs as ++ rest))) := by
      simp [serAttrs, List.flatMap_cons, List.cons_append, List.append_assoc, hd]
    have hlen : (serAttrs ((k, v) :: as)).length
        = 4 + k.data.length + (escapeAttrib v).length + (serAttrs as).length := by
      simp [serAttrs, List.flatMap_cons, List.length_append]
      omega
    rw [hlen] at hfuel
    obtain ⟨f, rfl⟩ : ∃ f, fuel = f + 1 := ⟨fuel - 1, by omega⟩
    rw [hinput]
    have hdrop : List.dropWhile xmlWs
        (' ' :: d :: (ds ++ '=' :: '"' :: (escapeAttrib v ++ '"' :: (serAttrs as ++ rest))))
        = d :: (ds ++ '=' :: '"' :: (escapeAttrib v ++ '"' :: (serAttrs as ++ rest))) := by
      rw [List.dropWhile_cons, List.dropWhile_cons, (nameChar_facts hdchar).1]
      simp [xmlWs]
    have hYhead : ∀ c r, ('=' :: '"' :: (escapeAttrib v ++ '"' :: (serAttrs as ++ rest))) = c :: r
        → nameChar c = false := by
      intro c r hcr
      injection hcr with h1 _
      subst h1
      decide
    have htakeds := (takeWhile_append_all nameChar ds
      ('=' :: '"' :: (escapeAttrib v ++ '"' :: (serAttrs as ++ rest))) hdsall hYhead).1
    have hdropds := (takeWhile_append_all nameChar ds
      ('=' :: '"' :: (escapeAttrib v ++ '"' :: (serAttrs as ++ rest))) hdsall hYhead).2
    have hne1 : (decide (d = '>') || decide (d = '/')) = false := by
      have h2 := (nameChar_facts hdchar).2.1
      have h3 := (nameChar_facts hdchar).2.2.1
      simp [h2, h3]
    have hesc : escapeAttrib v = v.data.flatMap escapeAttribChar := rfl
    have hval : scanValue '"' f (escapeAttrib v ++ '"' :: (serAttrs as ++ rest))
        = some (v.data, serAttrs as ++ rest) := by
      rw [hesc]
      exact scanValue_ser v.data (serAttrs as ++ rest) f (by rw [hesc] at hfuel; omega)
    have hih : scanAttrs f (serAttrs as ++ rest) = some (as, rest.dropWhile xmlWs) :=
      ih rest f has (by omega) hrest
    have hkmk : (⟨d :: ds⟩ : String) = k := by rw [← hd]
    have hvmk : (⟨v.data⟩ : String) = v := rfl
    simp only [scanAttrs]
    rw [hdrop]
    simp [hne1, hdchar, htakeds, hdropds, hval, hih, hkmk, hvmk, List.dropWhile_cons, xmlWs]

theorem serAttrs_head_not (attrs : List (String × String)) (c0 : Char) (X : List Char)
    (h0 : nameChar c0 = false) :
    ∀ c r, serAttrs attrs ++ c0 :: X = c :: r → nameChar c = false := by
  cases attrs with
  | nil =>
    intro c r h
    have he : serAttrs [] ++ c0 :: X = c0 :: X := by simp [serAttrs]
    rw [he] at h
    injection h with h1 _
    rw [← h1]
    exact h0
  | cons a as =>
    intro c r h
    have he : serAttrs (a :: as) ++ c0 :: X
        = ' ' :: (a.1.data ++ '=' :: '"' :: (escapeAttrib a.2 ++ '"' :: (serAttrs as ++ c0 :: X))) := by
      simp [serAttrs, List.flatMap_cons, List.cons_append, List.append_assoc]
    rw [he] at h
    injection h with h1 _
    rw [← h1]
    decide

theorem serElemBody_tag (tag : String) (attrs : List (String × String)) (text : String)
    (ch : XChildren) :
    ∃ t, serElemBody (.mk tag attrs text ch) = tag.data ++ t := by
  by_cases hs : text = "" ∧ ch.isNil = true
  · refine ⟨serAttrs attrs ++ [' ', '/', '>'], ?_⟩
    simp only [serElemBody, if_pos hs, List.append_assoc]
  · refine ⟨serAttrs attrs
      ++ '>' :: (escapeCdata text ++ (serChildren ch ++ '<' :: '/' :: (tag.data ++ ['>']))), ?_⟩
    simp only [serElemBody, if_neg hs, List.append_assoc, List.cons_append]

theorem serElemBody_head (e : XElem) (hwf : e.wf = true) :
    ∃ d t, serElemBody e = d :: t ∧ nameChar d = true := by
  obtain ⟨tag, attrs, text, ch⟩ := e
  have htag : nameOk tag = true := by
    simp only [XElem.wf, Bool.and_eq_true] at hwf
    exact hwf.1.1
  obtain ⟨hkne, hkall⟩ := nameOk_parts htag
  obtain ⟨d, ds, hd⟩ : ∃ d ds, tag.data = d :: ds := by
    cases hkd : tag.data with
    | nil => rw [hkd] at hkne; simp at hkne
    | cons d ds => exact ⟨d, ds, rfl⟩
  have hdchar : nameChar d = true := by
    rw [hd, List.all_cons, Bool.and_eq_true] at hkall
    exact hkall.1
  obtain ⟨t, ht⟩ := serElemBody_tag tag attrs text ch
  exact ⟨d, ds ++ t, by rw [ht, hd, List.cons_append], hdchar⟩

mutual

theorem parseElemBody_ser : ∀ (e : XElem) (rest : List Char) (fuel : Nat),
    e.wf = true → (serElemBody e).length < fuel →
    parseElemAfterLt fuel (serElemBody e ++ rest) = some (e, rest) := by
  intro e rest fuel hwf hfuel
  obtain ⟨tag, attrs, text, ch⟩ := e
  have hwf' : nameOk tag = true ∧ (attrs.all fun kv => nameOk kv.1) = true ∧ ch.wf = true := by
    simp only [XElem.wf, Bool.and_eq_true] at hwf
    exact ⟨hwf.1.1, hwf.1.2, hwf.2⟩
  obtain ⟨htag, hattrs, hch⟩ := hwf'
  obtain ⟨hkne, hkall⟩ := nameOk_parts htag
  obtain ⟨d, ds, hd⟩ : ∃ d ds, tag.data = d :: ds := by
    cases hkd : tag.data with
    | nil => rw [hkd] at hkne; simp at hkne
    | cons d ds => exact ⟨d, ds, rfl⟩
  have hdchar : nameChar d = true := by
    rw [hd, List.all_cons, Bool.and_eq_true] at hkall
    exact hkall.1
  have htagmk : (⟨tag.data⟩ : String) = tag := rfl
  by_cases hs : text = "" ∧ ch.isNil = true
  · -- short form `tag attrs />`
    obtain ⟨htext, hnil⟩ := hs
    have hchn : ch = .nil := by
      cases ch
      · rfl
      · exact absurd hnil (by simp [XChildren.isNil])
    subst hchn
    subst htext
    have hser : serElemBody (.mk tag attrs "" .nil)
        = tag.data ++ (serAttrs attrs ++ [' ', '/', '>']) := by
      simp [serElemBody, XChildren.isNil, List.append_assoc]
    have hinput : serElemBody (.mk tag attrs "" .nil) ++ rest
        = tag.data ++ (serAttrs attrs ++ ' ' :: '/' :: '>' :: rest) := by
      rw [hser]
      simp [List.append_assoc]
    rw [hser] at hfuel
    simp only [List.length_append, List.length_cons, List.length_nil] at hfuel
    obtain ⟨f, rfl⟩ : ∃ f, fuel = f + 1 := ⟨fuel - 1, by omega⟩
    rw [hinput]
    have hhead := serAttrs_head_not attrs ' ' ('/' :: '>' :: rest) (by decide)
    have htake := (takeWhile_append_all nameChar tag.data _ hkall hhead).1
    have hdropn := (takeWhile_append_all nameChar tag.data _ hkall hhead).2
    have hattrsc : scanAttrs f (serAttrs attrs ++ ' ' :: '/' :: '>' :: rest)
        = some (attrs, '/' :: '>' :: rest) := by
      have h := scanAttrs_ser attrs (' ' :: '/' :: '>' :: rest) f hattrs (by omega)
        ⟨'>' :: rest, by simp [List.dropWhile_cons, xmlWs]⟩
      rw [h]
      simp [List.dropWhile_cons, xmlWs]
    simp only [parseElemAfterLt, htake, hdropn, hattrsc]
    simp [hkne, htagmk]
  · -- full form `tag attrs>text children</tag>`
    have hser : serElemBody (.mk tag attrs text ch)
        = tag.data ++ (serAttrs attrs
            ++ '>' :: (escapeCdata text ++ (serChildren ch ++ '<' :: '/' :: (tag.data ++ ['>'])))) := by
      simp only [serElemBody, if_neg hs, List.append_assoc, List.cons_append]
    have hinput : serElemBody (.mk tag attrs text ch) ++ rest
        = tag.data ++ (serAttrs attrs
            ++ '>' :: (escapeCdata text ++ (serChildren ch
              ++ '<' :: '/' :: (tag.data ++ '>' :: rest)))) := by
      rw [hser]
      simp [List.append_assoc]
    rw [hser] at hfuel
    simp only [List.length_append, List.length_cons, List.length_nil] at hfuel
    obtain ⟨f, rfl⟩ : ∃ f, fuel = f + 1 := ⟨fuel - 1, by omega⟩
    rw [hinput]
    have hhead := serAttrs_head_not attrs '>'
      (escapeCdata text ++ (serChildren ch ++ '<' :: '/' :: (tag.data ++ '>' :: rest)))
      (by decide)
    have htake := (takeWhile_append_all nameChar tag.data _ hkall hhead).1
    have hdropn := (takeWhile_append_all nameChar tag.data _ hkall hhead).2
    have hattrsc : scanAttrs f (serAttrs attrs
        ++ '>' :: (escapeCdata text ++ (serChildren ch ++ '<' :: '/' :: (tag.data ++ '>' :: rest))))
        = some (attrs, '>' :: (escapeCdata text
            ++ (serChildren ch ++ '<' :: '/' :: (tag.data ++ '>' :: rest)))) := by
      have h := scanAttrs_ser attrs ('>' :: (escapeCdata text
          ++ (serChildren ch ++ '<' :: '/' :: (tag.data ++ '>' :: rest)))) f hattrs (by omega)
        ⟨escapeCdata text ++ (serChildren ch ++ '<' :: '/' :: (tag.data ++ '>' :: rest)),
          by simp [List.dropWhile_cons, xmlWs]⟩
      rw [h]
      simp [List.dropWhile_cons, xmlWs]
    have hcont : parseContent f (escapeCdata text
        ++ (serChildren ch ++ '<' :: '/' :: (tag.data ++ '>' :: rest)))
        = some (text.data, ch, '<' :: '/' :: (tag.data ++ '>' :: rest)) := by
      have h := parseContent_ser text ch ('<' :: '/' :: (tag.data ++ '>' :: rest)) f hch
        (by simp only [List.length_append] at hfuel ⊢; omega)
        (.inr ⟨tag.data ++ '>' :: rest, rfl⟩)
      rw [List.append_assoc] at h
      exact h
    have hctake := (takeWhile_append_all nameChar tag.data ('>' :: rest) hkall
      (by intro c r hcr; injection hcr with h1 _; rw [← h1]; decide)).1
    have hcdrop := (takeWhile_append_all nameChar tag.data ('>' :: rest) hkall
      (by intro c r hcr; injection hcr with h1 _; rw [← h1]; decide)).2
    have htextmk : (⟨text.data⟩ : String) = text := rfl
    simp only [parseElemAfterLt, htake, hdropn, hattrsc, hcont, hctake, hcdrop]
    simp [hkne, htagmk, htextmk, List.dropWhile_cons, xmlWs]

theorem parseContent_ser : ∀ (text : String) (ch : XChildren) (rest : List Char) (fuel : Nat),
    ch.wf = true → (escapeCdata text ++ serChildren ch).length + 1 < fuel →
    (rest = [] ∨ ∃ r', rest = '<' :: '/' :: r') →
    parseContent fuel (escapeCdata text ++ serChildren ch ++ rest) = some (text.data, ch, rest) := by
  intro text ch rest fuel hwf hfuel hrest
  obtain ⟨f, rfl⟩ : ∃ f, fuel = f + 1 := ⟨fuel - 1, by omega⟩
  have hesc : escapeCdata text = text.data.flatMap escapeCdataChar := rfl
  cases ch with
  | nil =>
    have hscan : scanText f (escapeCdata text ++ rest) = some (text.data, rest) := by
      rw [hesc]
      exact scanText_ser text.data rest f
        (by rw [hesc] at hfuel; simp [List.length_append] at hfuel ⊢; omega)
        (by rcases hrest with rfl | ⟨r', rfl⟩
            · exact .inl rfl
            · exact .inr ⟨'/' :: r', rfl⟩)
    have hn : serChildren .nil = ([] : List Char) := rfl
    rw [hn, List.append_nil]
    simp only [parseContent, hscan]
    rcases hrest with rfl | ⟨r', rfl⟩
    · rfl
    · simp
  | cons e tail rest' =>
    have hwfe : e.wf = true ∧ rest'.wf = true := by
      simp only [XChildren.wf, Bool.and_eq_true] at hwf
      exact hwf
    obtain ⟨de, te, hde, hdechar⟩ := serElemBody_head e hwfe.1
    have hinput : escapeCdata text ++ serChildren (.cons e tail rest') ++ rest
        = escapeCdata text ++ ('<' :: (serElemBody e
            ++ (escapeCdata tail ++ (serChildren rest' ++ rest)))) := by
      simp [serChildren, List.append_assoc, List.cons_append]
    have hlen : (escapeCdata text ++ serChildren (.cons e tail rest')).length
        = (escapeCdata text).length + 1 + (serElemBody e).length + (escapeCdata tail).length
            + (serChildren rest').length := by
      simp [serChildren, List.length_append]
      omega
    rw [hlen] at hfuel
    have hbodypos : 1 ≤ (serElemBody e).length := by rw [hde]; simp
    have hscan : scanText f (escapeCdata text ++ ('<' :: (serElemBody e
        ++ (escapeCdata tail ++ (serChildren rest' ++ rest)))))
        = some (text.data, '<' :: (serElemBody e
            ++ (escapeCdata tail ++ (serChildren rest' ++ rest)))) := by
      rw [hesc]
      exact scanText_ser text.data _ f (by rw [hesc] at hfuel; omega) (.inr ⟨_, rfl⟩)
    have helem : parseElemAfterLt f (serElemBody e ++ (escapeCdata tail ++ (serChildren rest' ++ rest)))
        = some (e, escapeCdata tail ++ (serChildren rest' ++ rest)) :=
      parseElemBody_ser e _ f hwfe.1 (by omega)
    have hcont : parseContent f (escapeCdata tail ++ (serChildren rest' ++ rest))
        = some (tail.data, rest', rest) := by
      have h := parseContent_ser tail rest' rest f hwfe.2
        (by simp only [List.length_append]; omega) hrest
      rw [List.append_assoc] at h
      exact h
    have htailmk : (⟨tail.data⟩ : String) = tail := rfl
    rw [hinput]
    simp only [parseContent, hscan]
    rw [hde]
    have hne : ¬de = '/' := by
      intro h
      rw [h] at hdechar
      exact absurd hdechar (by decide)
    simp only [List.cons_append, List.append_assoc]
    rw [← List.cons_append, ← hde]
    simp only [helem, hcont]
    simp [hne, htailmk, ← List.append_assoc, helem, hcont, hde]

end

theorem ET_fromstring_decl_reduce (l : List Char) :
    ET_fromstring (String.mk ("<?xml version='1.0' encoding='utf-8'?>\n".data ++ '<' :: l))
      = (match parseElemAfterLt
            ((String.mk ("<?xml version='1.0' encoding='utf-8'?>\n".data ++ '<' :: l)).length + 1)
            l with
        | some (e', r) => if r.dropWhile xmlWs = [] then Except.ok e' else Except.error ()
        | none => Except.error ()) := rfl

theorem ET_fromstring_tostring (e : XElem) (hwf : e.wf = true) :
    ET_fromstring (ET_tostring_decl e) = .ok e := by
  have hmk : ET_tostring_decl e
      = String.mk ("<?xml version='1.0' encoding='utf-8'?>\n".data ++ '<' :: serElemBody e) := rfl
  have hlen : (serElemBody e).length
      < (String.mk ("<?xml version='1.0' encoding='utf-8'?>\n".data ++ '<' :: serElemBody e)).length
        + 1 := by
    have h1 : (String.mk ("<?xml version='1.0' encoding='utf-8'?>\n".data
        ++ '<' :: serElemBody e)).length
        = ("<?xml version='1.0' encoding='utf-8'?>\n".data ++ '<' :: serElemBody e).length := rfl
    rw [h1]
    simp [List.length_append]
    omega
  have hparse := parseElemBody_ser e []
    ((String.mk ("<?xml version='1.0' encoding='utf-8'?>\n".data
      ++ '<' :: serElemBody e)).length + 1) hwf hlen
  rw [List.append_nil] at hparse
  rw [hmk, ET_fromstring_decl_reduce, hparse]
  rfl

theorem scanAttrs_names_ok : ∀ (fuel : Nat) (cs : List Char) (attrs : List (String × String))
    (r : List Char), scanAttrs fuel cs = some (attrs, r)
      → attrs.all (fun kv => nameOk kv.1) = true := by
  intro fuel
  induction fuel with
  | zero => intro cs attrs r h; simp [scanAttrs] at h
  | succ f ih =>
    intro cs attrs r h
    simp only [scanAttrs] at h
    split at h
    · simp at h
    · rename_i c rest heq
      split at h
      · simp only [Option.some_inj, Prod.mk.injEq] at h
        rw [← h.1]
        rfl
      · split at h
        · simp at h
        · rename_i hstop hnmne
          split at h
          · rename_i r2 heq2
            split at h
            · rename_i q r3 heq3
              split at h
              · split at h
                · simp at h
                · rename_i hq v r4 hval
                  rw [Option.map_eq_some'] at h
                  obtain ⟨⟨attrs2, r5⟩, hsc, hpair⟩ := h
                  simp only [Prod.mk.injEq] at hpair
                  rw [← hpair.1, List.all_cons, Bool.and_eq_true]
                  constructor
                  · have hne : ((c :: rest).takeWhile nameChar).isEmpty = false := by
                      cases hb : ((c :: rest).takeWhile nameChar).isEmpty
                      · rfl
                      · exact absurd hb hnmne
                    simp only [nameOk, Bool.and_eq_true, Bool.not_eq_true']
                    exact ⟨hne, all_takeWhile nameChar (c :: rest)⟩
                  · exact ih r4 attrs2 r5 hsc
              · simp at h
            · simp at h
          · simp at h

theorem parse_wf : ∀ (fuel : Nat),
    (∀ cs e r, parseElemAfterLt fuel cs = some (e, r) → e.wf = true) ∧
    (∀ cs t ch r, parseContent fuel cs = some (t, ch, r) → ch.wf = true) := by
  intro fuel
  induction fuel with
  | zero =>
    constructor
    · intro cs e r h; simp [parseElemAfterLt] at h
    · intro cs t ch r h; simp [parseContent] at h
  | succ f ih =>
    constructor
    · intro cs e r h
      simp only [parseElemAfterLt] at h
      split at h
      · simp at h
      · rename_i hnm
        have hnmok : nameOk ⟨cs.takeWhile nameChar⟩ = true := by
          have hne : (cs.takeWhile nameChar).isEmpty = false := by
            cases hb : (cs.takeWhile nameChar).isEmpty
            · rfl
            · exact absurd hb hnm
          simp only [nameOk, Bool.and_eq_true, Bool.not_eq_true']
          exact ⟨hne, all_takeWhile nameChar cs⟩
        split at h
        · simp at h
        · rename_i attrs2 r2 hattrs
          have hattrsok := scanAttrs_names_ok f _ attrs2 r2 hattrs
          split at h
          · simp only [Option.some_inj, Prod.mk.injEq] at h
            rw [← h.1]
            simp only [XElem.wf, Bool.and_eq_true]
            exact ⟨⟨hnmok, hattrsok⟩, rfl⟩
          · rename_i r3 heq3
            split at h
            · simp at h
            · rename_i text2 ch2 r4 hcont
              have hchok := ih.2 _ text2 ch2 r4 hcont
              split at h
              · rename_i r5 heq5
                split at h
                · rename_i hcnm
                  split at h
                  · rename_i r7 heq7
                    simp only [Option.some_inj, Prod.mk.injEq] at h
                    rw [← h.1]
                    simp only [XElem.wf, Bool.and_eq_true]
                    exact ⟨⟨hnmok, hattrsok⟩, hchok⟩
                  · simp at h
                · simp at h
              · simp at h
          · simp at h
    · intro cs t ch r h
      simp only [parseContent] at h
      split at h
      · simp at h
      · rename_i text2 r2 hscan
        split at h
        · simp only [Option.some_inj, Prod.mk.injEq] at h
          rw [← h.2.1]
          rfl
        · rename_i c r3 heq3
          split at h
          · split at h
            · simp at h
            · rename_i c2 r4 heq4
              split at h
              · simp only [Option.some_inj, Prod.mk.injEq] at h
                rw [← h.2.1]
                rfl
              · split at h
                · simp at h
                · rename_i e2 r5 helem
                  split at h
                  · simp at h
                  · rename_i tail2 ch2 r6 hcont
                    simp only [Option.some_inj, Prod.mk.injEq] at h
                    rw [← h.2.1]
                    simp only [XChildren.wf, Bool.and_eq_true]
                    exact ⟨ih.1 _ e2 r5 helem, ih.2 _ tail2 ch2 r6 hcont⟩
          · simp only [Option.some_inj, Prod.mk.injEq] at h
            rw [← h.2.1]
            rfl

/-- The tree `ET_fromstring` returns is well-formed. -/
theorem ET_fromstring_wf (s : String) (root : XElem) (h : ET_fromstring s = .ok root) :
    root.wf = true := by
  simp only [ET_fromstring] at h
  split at h
  · simp at h
  · rename_i cs1 hdecl
    split at h
    · rename_i rest heq
      split at h
      · rename_i e2 r2 hp
        split at h
        · simp only [Except.ok.injEq] at h
          rw [← h]
          exact (parse_wf (s.length + 1)).1 rest e2 r2 hp
        · simp at h
      · simp at h
    · simp at h

theorem wf_removeFirstTag : ∀ (ch : XChildren) (t : String),
    ch.wf = true → (ch.removeFirstTag t).wf = true := by
  intro ch t h
  cases ch with
  | nil => exact h
  | cons e tail rest =>
    simp only [XChildren.wf, Bool.and_eq_true] at h
    by_cases he : e.tag = t
    · simp only [XChildren.removeFirstTag, if_pos he]
      exact h.2
    · simp only [XChildren.removeFirstTag, if_neg he, XChildren.wf, Bool.and_eq_true]
      exact ⟨h.1, wf_removeFirstTag rest t h.2⟩

theorem findTag_tag : ∀ (ch : XChildren) (t : String) (d : XElem),
    ch.findTag t = some d → d.tag = t := by
  intro ch t d h
  cases ch with
  | nil => simp [XChildren.findTag] at h
  | cons e tail rest =>
    by_cases he : e.tag = t
    · simp only [XChildren.findTag, if_pos he, Option.some_inj] at h
      rw [← h]
      exact he
    · simp only [XChildren.findTag, if_neg he] at h
      exact findTag_tag rest t d h

theorem netsCount_pos_of_tag (d : XElem) (h : d.tag = "nets") : 1 ≤ d.netsCount := by
  obtain ⟨tag, attrs, text, ch⟩ := d
  simp only [XElem.tag] at h
  simp only [XElem.netsCount, if_pos h]
  omega

theorem netsCount_find_remove : ∀ (ch : XChildren) (d : XElem),
    ch.findTag "nets" = some d →
    ch.netsCount = d.netsCount + (ch.removeFirstTag "nets").netsCount := by
  intro ch d h
  cases ch with
  | nil => simp [XChildren.findTag] at h
  | cons e tail rest =>
    by_cases he : e.tag = "nets"
    · simp only [XChildren.findTag, if_pos he, Option.some_inj] at h
      simp only [XChildren.removeFirstTag, if_pos he, XChildren.netsCount, ← h]
    · simp only [XChildren.findTag, if_neg he] at h
      have hrec := netsCount_find_remove rest d h
      simp only [XChildren.removeFirstTag, if_neg he, XChildren.netsCount]
      omega

theorem findTag_none_of_count : ∀ (ch : XChildren),
    ch.netsCount = 0 → ch.findTag "nets" = none := by
  intro ch h
  cases ch with
  | nil => rfl
  | cons e tail rest =>
    simp only [XChildren.netsCount] at h
    have he : ¬e.tag = "nets" := by
      intro htag
      have := netsCount_pos_of_tag e htag
      omega
    simp only [XChildren.findTag, if_neg he]
    exact findTag_none_of_count rest (by omega)

theorem stripNets_wf (root : XElem) (h : root.wf = true) : (stripNets root).wf = true := by
  obtain ⟨tag, attrs, text, ch⟩ := root
  simp only [stripNets]
  split
  · exact h
  · simp only [XElem.children, XElem.tag, XElem.attrs, XElem.text]
    simp only [XElem.wf, Bool.and_eq_true] at h ⊢
    exact ⟨h.1, wf_removeFirstTag ch "nets" h.2⟩

theorem stripNets_id (root : XElem) (h : root.netsCount = 0) : stripNets root = root := by
  obtain ⟨tag, attrs, text, ch⟩ := root
  simp only [XElem.netsCount] at h
  have hch : ch.netsCount = 0 := by
    by_cases ht : tag = "nets"
    · rw [if_pos ht] at h; omega
    · rw [if_neg ht] at h; omega
  simp only [stripNets, XElem.children, findTag_none_of_count ch hch]

theorem stripNets_count (root : XElem)
    (hfind : (root.children.findTag "nets").isSome = true)
    (hcount : root.netsCount = 1) :
    (stripNets root).netsCount = 0 := by
  obtain ⟨tag, attrs, text, ch⟩ := root
  simp only [XElem.children] at hfind
  obtain ⟨d, hd⟩ : ∃ d, ch.findTag "nets" = some d := by
    cases hfd : ch.findTag "nets"
    · rw [hfd] at hfind; simp at hfind
    · exact ⟨_, rfl⟩
  have hdpos := netsCount_pos_of_tag d (findTag_tag ch "nets" d hd)
  have hsplit := netsCount_find_remove ch d hd
  simp only [XElem.netsCount] at hcount
  simp only [stripNets, XElem.children, hd, XElem.tag, XElem.attrs, XElem.text,
    XElem.netsCount]
  by_cases ht : tag = "nets"
  · rw [if_pos ht] at hcount ⊢
    omega
  · rw [if_neg ht] at hcount ⊢
    omega

/-- C2 counterexample: a well-formed document whose only `nets` element is
not a direct child of the root: `root.find("nets")` misses it, and the
value `get_netlist` returns still contains a `nets` element, contradicting
the claim as stated. -/
theorem C2_counterexample :
    get_netlist nested_nets_transport
        = some "<?xml version='1.0' encoding='utf-8'?>\n<r><a><nets /></a></r>" ∧
      (ET_fromstring "<?xml version='1.0' encoding='utf-8'?>\n<r><a><nets /></a></r>").map
          XElem.netsCount = .ok 1 := ⟨rfl, rfl⟩

/-- C2 amended: for every reply whose `net_list` payload base64-decodes to
a well-formed XML document: if the document contains exactly one `nets`
element and that element is a direct child of the root, the value returned
by `get_netlist` parses as valid XML and contains no `nets` element (it is
the canonical re-serialization, with an XML declaration, of the document
minus that element); if the document contains no `nets` element, the
returned value is the same document unchanged apart from canonical
re-serialization (with an XML declaration). -/
theorem C2_sanitization (t : Transport) (b payload s : String) (bs : List Nat) (root : XElem)
    (ht : t netlist_request.dumps = .reply b)
    (hj : json_loads b = .ok (.obj [("net_list", .str payload)]))
    (hne : payload.isEmpty = false)
    (hb : b64decode payload = .ok bs)
    (hu : utf8decode bs = .ok s)
    (hparse : ET_fromstring s = .ok root) :
    ((root.children.findTag "nets").isSome = true → root.netsCount = 1 →
        get_netlist t = some (ET_tostring_decl (stripNets root)) ∧
        ET_fromstring (ET_tostring_decl (stripNets root)) = .ok (stripNets root) ∧
        (stripNets root).netsCount = 0) ∧
      (root.netsCount = 0 → get_netlist t = some (ET_tostring_decl root)) := by
  have hget : get_netlist t = some (netlist_xml_phase s) := by
    simp [get_netlist, ht, hj, lookupLast, JVal.falsy, hne, hb, hu]
  have hphase : netlist_xml_phase s = ET_tostring_decl (stripNets root) := by
    simp [netlist_xml_phase, hparse]
  have hwf := ET_fromstring_wf s root hparse
  constructor
  · intro hfind hcount
    exact ⟨by rw [hget, hphase], ET_fromstring_tostring _ (stripNets_wf root hwf),
      stripNets_count root hfind hcount⟩
  · intro h0
    rw [hget, hphase, stripNets_id root h0]

/-- C2 witness: the sample document with a single direct `nets` child runs
through the pipeline, the result re-parses, and it contains no `nets`
element. -/
theorem C2_sanitization_witness :
    ET_fromstring direct_nets_doc = .ok direct_nets_root ∧
      (direct_nets_root.children.findTag "nets").isSome = true ∧
      direct_nets_root.netsCount = 1 ∧
      get_netlist direct_nets_transport = some (ET_tostring_decl (stripNets direct_nets_root)) ∧
      ET_fromstring (ET_tostring_decl (stripNets direct_nets_root))
        = .ok (stripNets direct_nets_root) ∧
      (stripNets direct_nets_root).netsCount = 0 := by
  have h := C2_sanitization direct_nets_transport
    ("\x7b\"net_list\": \"" ++ direct_nets_b64 ++ "\"\x7d") direct_nets_b64 direct_nets_doc
    (direct_nets_doc.data.map Char.toNat) direct_nets_root
    rfl rfl rfl rfl rfl rfl
  have h1 := h.1 rfl rfl
  exact ⟨rfl, rfl, rfl, h1.1, h1.2.1, h1.2.2⟩

end KicadMcp
